import Mathlib

/-!
# Verification of the Data-Storyteller analysis core

A shallow embedding of the repository's analysis engine
(`src/data_analyzer.py`, `src/utils.py`, `config/settings.py`) and proofs
about it.  Numeric cell values are modelled as rationals (`ℚ`): every
statistic the claims mention is either rational-valued or is compared
against a rational threshold, so thresholds such as `|z| > 3` and
`|r| > 0.7` are encoded square-free (comparing squares), which is exact.
A Python `float` that can be `NaN` is modelled by the type `PyFloat`
(`nan` or a rational); a Python `None` is modelled by `Option`.
-/

namespace DataStoryteller

/-- A cell of the table: missing (`NaN`/`None` in pandas), a numeric value,
or a textual value. -/
inductive Cell where
  | na : Cell
  | num : ℚ → Cell
  | str : String → Cell
deriving DecidableEq, Repr

/-- The pandas dtype of a column, as used by `select_dtypes`:
`numeric` columns participate in statistics, `object` columns are
categorical. -/
inductive Dtype where
  | numeric : Dtype
  | object : Dtype
deriving DecidableEq, Repr

/-- A named, typed column: the unit of `select_dtypes` dispatch. -/
structure Column where
  name : String
  dtype : Dtype
  cells : List Cell
deriving DecidableEq, Repr

/-- A pandas `DataFrame`: an ordered list of columns.  The well-formedness
invariant (all columns share one length) is taken as a hypothesis where a
row view is needed. -/
structure Table where
  cols : List Column
deriving DecidableEq, Repr

/-- A Python float that may be `NaN` (e.g. `pd.Series.std()` of a
single value). -/
inductive PyFloat where
  | nan : PyFloat
  | val : ℚ → PyFloat
deriving DecidableEq, Repr

/-- `Series.dropna()` on a column's cells: the numeric values, in original
row order. -/
def dropna (cells : List Cell) : List ℚ :=
  cells.filterMap fun c => match c with
    | Cell.num q => some q
    | _ => none

/-- `df.select_dtypes(include=[np.number])`: the numeric columns, in
original column order. -/
def numericCols (t : Table) : List Column :=
  t.cols.filter fun c => c.dtype = Dtype.numeric

/-- `df.select_dtypes(include=['object','category'])`: the categorical
columns. -/
def categoricalCols (t : Table) : List Column :=
  t.cols.filter fun c => c.dtype = Dtype.object

/-- Count the elements of a list satisfying a decidable predicate (the
`(series < lower) | (series > upper)).sum()` / `(zscores > 3).sum()`
counting idiom). -/
def countIf {α : Type} (P : α → Prop) [DecidablePred P] : List α → ℕ
  | [] => 0
  | x :: xs => (if P x then 1 else 0) + countIf P xs

/-- Insert into a sorted list (ascending). -/
def insertSorted (x : ℚ) : List ℚ → List ℚ
  | [] => [x]
  | y :: ys => if x ≤ y then x :: y :: ys else y :: insertSorted x ys

/-- Ascending sort of the values, as pandas performs internally before
quantile computation. -/
def sortAsc : List ℚ → List ℚ
  | [] => []
  | x :: xs => insertSorted x (sortAsc xs)

/-- `Series.quantile(q)` with the default `interpolation='linear'`, on an
already sorted nonempty list `s` of length `n`: position `h = q·(n−1)`,
answer `s[⌊h⌋] + (h − ⌊h⌋)·(s[⌊h⌋+1] − s[⌊h⌋])`. -/
def quantileSorted (s : List ℚ) (q : ℚ) : ℚ :=
  let n := s.length
  let pos := q * ((n : ℚ) - 1)
  let lo := (Int.floor pos).toNat
  let frac := pos - (lo : ℚ)
  let a := s.getD lo 0
  let b := s.getD (lo + 1) a
  a + frac * (b - a)

/-- `DataAnalyzer._detect_outliers`: IQR method.  Empty series → 0;
`IQR == 0` → 0; otherwise count values strictly outside
`[Q1 − 1.5·IQR, Q3 + 1.5·IQR]`. -/
def detectOutliers (xs : List ℚ) : ℕ :=
  if xs = [] then 0
  else
    let s := sortAsc xs
    let q1 := quantileSorted s (1/4)
    let q3 := quantileSorted s (3/4)
    let iqr := q3 - q1
    if iqr = 0 then 0
    else
      let lower := q1 - 3/2 * iqr
      let upper := q3 + 3/2 * iqr
      countIf (fun x => x < lower ∨ upper < x) xs

instance : Inhabited Column := ⟨⟨"", Dtype.numeric, []⟩⟩

/-- Arithmetic mean of the values (caller guarantees nonempty). -/
def listMean (v : List ℚ) : ℚ := v.sum / v.length

/-- Sum of squared deviations from the mean `Σ (x − μ)²`. -/
def ssd (v : List ℚ) : ℚ :=
  ((v.map fun x => (x - listMean v) ^ 2).sum)

/-- `Series.median()` on a nonempty list: middle of the sorted values, or
the average of the two middle values for even length. -/
def listMedian (v : List ℚ) : ℚ :=
  let s := sortAsc v
  let n := s.length
  if n % 2 = 1 then s.getD (n / 2) 0
  else (s.getD (n / 2 - 1) 0 + s.getD (n / 2) 0) / 2

/-- `Series.std()` (pandas default `ddof=1`), represented by its square
(the sample variance): `std = 0 ↔ variance = 0` and `std` is `NaN` exactly
when the variance is, so the claims about `std` transfer.  pandas returns
`NaN` when fewer than 2 values are present. -/
def sampleVarP (v : List ℚ) : PyFloat :=
  if v.length < 2 then PyFloat.nan
  else PyFloat.val (ssd v / ((v.length : ℚ) - 1))

/-- `scipy.stats.skew` (biased, Fisher-Pearson `g1 = m3 / m2^{3/2}`),
represented by its signed square `sign(m3)·m3²/m2³` (a monotone, sign- and
zero-preserving encoding, since `g1` itself is irrational in general);
`NaN` on zero variance. -/
def skewSSP (v : List ℚ) : PyFloat :=
  let n : ℚ := v.length
  let μ := listMean v
  let m2 := (v.map fun x => (x - μ) ^ 2).sum / n
  let m3 := (v.map fun x => (x - μ) ^ 3).sum / n
  if m2 = 0 then PyFloat.nan
  else if 0 ≤ m3 then PyFloat.val (m3 ^ 2 / m2 ^ 3)
  else PyFloat.val (-(m3 ^ 2 / m2 ^ 3))

/-- `scipy.stats.kurtosis` (biased, Fisher: `m4/m2² − 3`, exactly
rational); `NaN` on zero variance. -/
def kurtosisP (v : List ℚ) : PyFloat :=
  let n : ℚ := v.length
  let μ := listMean v
  let m2 := (v.map fun x => (x - μ) ^ 2).sum / n
  let m4 := (v.map fun x => (x - μ) ^ 4).sum / n
  if m2 = 0 then PyFloat.nan
  else PyFloat.val (m4 / m2 ^ 2 - 3)

/-- The per-numeric-column summary built by
`DataAnalyzer.statistical_summary`.  `stdSq` and `skewnessSS` carry the
square / signed-square encodings of the irrational statistics (see
`sampleVarP`, `skewSSP`). -/
structure NumericSummary where
  mean : Option ℚ
  median : Option ℚ
  stdSq : Option PyFloat
  min : Option ℚ
  max : Option ℚ
  skewnessSS : Option PyFloat
  kurtosis : Option PyFloat
  outliersCount : ℕ
deriving DecidableEq, Repr

/-- The numeric branch of `DataAnalyzer.statistical_summary`: drop
missing values; all-`None` summary (with 0 outliers) when nothing
remains, else the computed statistics, with skewness/kurtosis defaulting
to `0.0` for a single value. -/
def numericSummary (cells : List Cell) : NumericSummary :=
  let v := dropna cells
  if v = [] then
    { mean := none, median := none, stdSq := none, min := none,
      max := none, skewnessSS := none, kurtosis := none, outliersCount := 0 }
  else
    { mean := some (listMean v)
      median := some (listMedian v)
      stdSq := some (sampleVarP v)
      min := v.min?
      max := v.max?
      skewnessSS := some (if v.length > 1 then skewSSP v else PyFloat.val 0)
      kurtosis := some (if v.length > 1 then kurtosisP v else PyFloat.val 0)
      outliersCount := detectOutliers v }

/-- The per-categorical-column summary built by
`DataAnalyzer.statistical_summary` (the `value_counts` top-10 listing is
not modelled — no claim mentions it). -/
structure CategoricalSummary where
  uniqueCount : ℕ
  mostFrequent : Option Cell
deriving DecidableEq, Repr

/-- Non-missing values of a categorical column. -/
def catValues (cells : List Cell) : List Cell :=
  cells.filter fun c => decide (c ≠ Cell.na)

/-- `Series.mode().iloc[0]` guarded by emptiness: a value of maximal
frequency among the non-missing values, `None` when there are none.
(pandas returns the modes sorted; ties are broken here by first
occurrence, a fixed deterministic rule — no claim depends on the
tie-break.) -/
def modeFirst (cells : List Cell) : Option Cell :=
  let vs := catValues cells
  match vs.dedup with
  | [] => none
  | d :: ds => some ((ds.foldl (fun best c =>
      if vs.count best < vs.count c then c else best) d))

/-- The categorical branch of `DataAnalyzer.statistical_summary`:
`nunique(dropna=True)` and the guarded mode. -/
def categoricalSummary (cells : List Cell) : CategoricalSummary :=
  { uniqueCount := (catValues cells).dedup.length
    mostFrequent := modeFirst cells }

/-- `DataAnalyzer.statistical_summary`: the numeric summaries keyed by
column name, then the categorical ones. -/
def statistical_summary (t : Table) :
    List (String × NumericSummary) × List (String × CategoricalSummary) :=
  ((numericCols t).map fun c => (c.name, numericSummary c.cells),
   (categoricalCols t).map fun c => (c.name, categoricalSummary c.cells))

/-! ## detect_patterns -/

/-- A correlation finding.  The Pearson coefficient is carried as its
signed square `sign(Sxy)·Sxy²/(Sxx·Syy)` (exactly rational; the
coefficient itself is its square root with the same sign). -/
structure CorrFinding where
  var1 : String
  var2 : String
  corrSS : ℚ
deriving DecidableEq, Repr

inductive TrendDir where
  | increasing : TrendDir
  | decreasing : TrendDir
deriving DecidableEq, Repr

structure TrendFinding where
  column : String
  trend : TrendDir
deriving DecidableEq, Repr

structure AnomalyFinding where
  column : String
  anomaliesCount : ℕ
deriving DecidableEq, Repr

structure Patterns where
  correlations : List CorrFinding
  trends : List TrendFinding
  anomalies : List AnomalyFinding
deriving DecidableEq, Repr

/-- Rows where neither column is missing, as value pairs — the pairwise
deletion underlying `DataFrame.corr()`. -/
def pairwiseComplete (xs ys : List Cell) : List (ℚ × ℚ) :=
  (xs.zip ys).filterMap fun p => match p with
    | (Cell.num a, Cell.num b) => some (a, b)
    | _ => none

/-- Centered second moments of a list of pairs: `(Sxx, Syy, Sxy)`. -/
def sumsOfSquares (ps : List (ℚ × ℚ)) : ℚ × ℚ × ℚ :=
  let n : ℚ := ps.length
  let μx := (ps.map Prod.fst).sum / n
  let μy := (ps.map Prod.snd).sum / n
  ((ps.map fun p => (p.1 - μx) ^ 2).sum,
   (ps.map fun p => (p.2 - μy) ^ 2).sum,
   (ps.map fun p => (p.1 - μx) * (p.2 - μy)).sum)

/-- `not pd.isna(corr) and abs(corr) > 0.7` for a pair of columns: the
coefficient is defined iff both centered variances are nonzero, and
`|r| > 0.7 ↔ 100·Sxy² > 49·Sxx·Syy` (square-free encoding of the
threshold on `r = Sxy/√(Sxx·Syy)`). -/
def corrHigh (xs ys : List Cell) : Prop :=
  let m := sumsOfSquares (pairwiseComplete xs ys)
  m.1 ≠ 0 ∧ m.2.1 ≠ 0 ∧ 49 * m.1 * m.2.1 < 100 * m.2.2 ^ 2

instance (xs ys : List Cell) : Decidable (corrHigh xs ys) := by
  unfold corrHigh
  infer_instance

/-- The signed square of the Pearson coefficient of a pair of columns. -/
def corrSSOf (xs ys : List Cell) : ℚ :=
  let m := sumsOfSquares (pairwiseComplete xs ys)
  if 0 ≤ m.2.2 then m.2.2 ^ 2 / (m.1 * m.2.1) else -(m.2.2 ^ 2 / (m.1 * m.2.1))

/-- The correlation block of `detect_patterns`: nothing unless more than
one numeric column; otherwise the double loop `i`, `j ∈ [i+1, n)` keeping
pairs whose coefficient is defined and exceeds `0.7` in absolute value. -/
def highCorrelations (t : Table) : List CorrFinding :=
  let nd := numericCols t
  let n := nd.length
  if 1 < n then
    (List.range n).flatMap fun i =>
      (List.range' (i + 1) (n - (i + 1))).filterMap fun j =>
        if corrHigh (nd.getD i default).cells (nd.getD j default).cells then
          some ⟨(nd.getD i default).name, (nd.getD j default).name,
                corrSSOf (nd.getD i default).cells (nd.getD j default).cells⟩
        else none
  else []

/-- `ser.diff().dropna()`: successive differences of the non-missing
values. -/
def successiveDiffs (v : List ℚ) : List ℚ :=
  (v.zip v.tail).map fun p => p.2 - p.1

/-- The trend classification of one numeric column in `detect_patterns`:
at least 3 non-missing values and all differences strictly positive
(increasing) or strictly negative (decreasing). -/
def trendOfCol (c : Column) : Option TrendFinding :=
  let v := dropna c.cells
  if 3 ≤ v.length then
    let d := successiveDiffs v
    if ∀ x ∈ d, 0 < x then some ⟨c.name, TrendDir.increasing⟩
    else if ∀ x ∈ d, x < 0 then some ⟨c.name, TrendDir.decreasing⟩
    else none
  else none

/-- The trend block of `detect_patterns`. -/
def trendsOf (t : Table) : List TrendFinding :=
  (numericCols t).filterMap trendOfCol

/-- `(np.abs(stats.zscore(ser)) > 3).sum()`.  `scipy.stats.zscore`
defaults to `ddof=0`, i.e. the **population** standard deviation
`σ² = ssd/n`; `|z| > 3` is encoded square-free as `(x−μ)² > 9·σ²`
(a `NaN` z-score on a constant column compares false, matching the
encoding, which then counts nothing). -/
def anomalyCount (v : List ℚ) : ℕ :=
  let n := v.length
  let μ := listMean v
  let s := ssd v
  countIf (fun x => 9 * (s / n) < (x - μ) ^ 2) v

/-- The anomaly block of `detect_patterns`: columns with more than 5
non-missing values and a positive count of `|z| > 3` values. -/
def anomaliesOf (t : Table) : List AnomalyFinding :=
  (numericCols t).filterMap fun c =>
    let v := dropna c.cells
    if 5 < v.length then
      let a := anomalyCount v
      if 0 < a then some ⟨c.name, a⟩ else none
    else none

/-- `DataAnalyzer.detect_patterns`. -/
def detect_patterns (t : Table) : Patterns :=
  { correlations := highCorrelations t
    trends := trendsOf t
    anomalies := anomaliesOf t }

/-! ## basic_info -/

/-- `df.shape[0]`: the common length of the columns (0 when there are no
columns). -/
def Table.nrows (t : Table) : ℕ :=
  match t.cols with
  | [] => 0
  | c :: _ => c.cells.length

/-- Row `i` of the table, read across the columns. -/
def Table.row (t : Table) (i : ℕ) : List Cell :=
  t.cols.map fun c => c.cells.getD i Cell.na

/-- The rows of the table in order. -/
def Table.rows (t : Table) : List (List Cell) :=
  (List.range t.nrows).map t.row

/-- `df.duplicated().sum()`, modelled operationally the way the
hash-based pandas routine behaves: scan the rows keeping the set of rows
already seen, counting each row equal to one seen before. -/
def countDups (rows : List (List Cell)) : ℕ :=
  (rows.foldl (fun (acc : List (List Cell) × ℕ) r =>
    if r ∈ acc.1 then (acc.1, acc.2 + 1) else (r :: acc.1, acc.2)) ([], 0)).2

/-- The result of `DataAnalyzer.basic_info` (the `dtypes` and
`memory_usage` fields, informational only, are not modelled — no claim
constrains them). -/
structure BasicInfo where
  shape : ℕ × ℕ
  columns : List String
  missingValues : List (String × ℕ)
  duplicateRows : ℕ
deriving DecidableEq, Repr

/-- `DataAnalyzer.basic_info`: shape, column names, per-column
`isnull().sum()`, and `duplicated().sum()`. -/
def basic_info (t : Table) : BasicInfo :=
  { shape := (t.nrows, t.cols.length)
    columns := t.cols.map (·.name)
    missingValues := t.cols.map fun c =>
      (c.name, (c.cells.filter fun x => decide (x = Cell.na)).length)
    duplicateRows := countDups t.rows }

/-! ## Analyzer state (construction copies the frame; methods only read) -/

/-- The `DataAnalyzer` object: `self.df` (a private copy of the input)
and `self.analysis_results` (initialized empty, never written by the
methods under study). -/
structure AnalyzerState where
  df : Table
  analysisResults : List (String × String)
deriving DecidableEq, Repr

/-- `DataAnalyzer.__init__`: stores `df.copy()` (value semantics: the
copy is the same table value, now owned by the analyzer) and an empty
results dict. -/
def DataAnalyzer.init (df : Table) : AnalyzerState :=
  { df := df, analysisResults := [] }

/-- One analysis request against a constructed analyzer. -/
inductive AnalyzerOp where
  | basicInfo : AnalyzerOp
  | statSummary : AnalyzerOp
  | detectPatterns : AnalyzerOp
deriving DecidableEq, Repr

/-- The result of one analysis request. -/
inductive AnalyzerResult where
  | info : BasicInfo → AnalyzerResult
  | stats : List (String × NumericSummary) × List (String × CategoricalSummary) → AnalyzerResult
  | patterns : Patterns → AnalyzerResult
deriving DecidableEq, Repr

/-- The world visible to the analyzer: the caller's source table and the
analyzer object.  Running a method may in principle update both; the
theorems show it updates neither. -/
structure Env where
  source : Table
  analyzer : AnalyzerState
deriving DecidableEq, Repr

/-- Dispatch one method call: each method computes from `self.df` alone
and performs no writes. -/
def stepOp (e : Env) : AnalyzerOp → AnalyzerResult × Env
  | AnalyzerOp.basicInfo => (AnalyzerResult.info (basic_info e.analyzer.df), e)
  | AnalyzerOp.statSummary => (AnalyzerResult.stats (statistical_summary e.analyzer.df), e)
  | AnalyzerOp.detectPatterns => (AnalyzerResult.patterns (detect_patterns e.analyzer.df), e)

/-- Run a sequence of method calls, threading the environment. -/
def runOps (e : Env) : List AnalyzerOp → Env
  | [] => e
  | o :: os => runOps (stepOp e o).2 os

/-- `detect_patterns` as a method call on the analyzer object: returns
the patterns and the (unchanged) object. -/
def runDetectPatterns (a : AnalyzerState) : Patterns × AnalyzerState :=
  (detect_patterns a.df, a)

/-! ## File-size check (`src/utils.py`, `config/settings.py`) -/

/-- `Config.MAX_FILE_SIZE` default: 200 (MB, i.e. MiB here since the
check divides by `1024²`). -/
def MAX_FILE_SIZE_default : ℕ := 200

/-- One piece of the user-facing message: literal text or an interpolated
megabyte quantity (the `.1f` display rounding of the f-string is a
formatting detail; the token carries the exact value). -/
inductive MsgPart where
  | lit : String → MsgPart
  | mb : ℚ → MsgPart
deriving DecidableEq, Repr

/-- `check_file_size_bytes`: convert to MB by dividing by `1024²`,
reject iff the result exceeds `MAX_FILE_SIZE`; both messages interpolate
the measured size, the rejection message also the limit. -/
def check_file_size_bytes (maxMB : ℕ) (fileSizeBytes : ℕ) : Bool × List MsgPart :=
  let sizeMB : ℚ := (fileSizeBytes : ℚ) / (1024 ^ 2)
  if (maxMB : ℚ) < sizeMB then
    (false, [MsgPart.lit "File size ", MsgPart.mb sizeMB,
             MsgPart.lit " MB exceeds the maximum allowed ",
             MsgPart.mb (maxMB : ℚ), MsgPart.lit " MB."])
  else
    (true, [MsgPart.lit "File size ", MsgPart.mb sizeMB,
            MsgPart.lit " MB within allowed limit."])

/-! ## Spec-side definitions

Each of these follows the wording of the specification (not the code) and
is compared with the corresponding source-translated definition above. -/

/-- Spec wording of the anomaly rule *as the claim states it*: z-score
`(value − mean) / sample_std` over the non-missing values, counting
`|z| > 3`, square-free: `(x−μ)²·(n−1) > 9·Σ(x−μ)²`. -/
def specAnomalyCountSample (v : List ℚ) : ℕ :=
  let μ := listMean v
  let s := ssd v
  countIf (fun x => 9 * s < (x - μ) ^ 2 * ((v.length : ℚ) - 1)) v

/-- Spec-side anomaly findings with the **sample** standard deviation, as
claimed: more than 5 non-missing values, finding iff the count is
positive. -/
def specAnomaliesSample (t : Table) : List AnomalyFinding :=
  (numericCols t).filterMap fun c =>
    let v := dropna c.cells
    let k := specAnomalyCountSample v
    if 5 < v.length ∧ 0 < k then some ⟨c.name, k⟩ else none

/-- Anomaly count with the **population** standard deviation (what
`scipy.stats.zscore` actually uses), square-free with cleared
denominators: `(x−μ)²·n > 9·Σ(x−μ)²`. -/
def specAnomalyCountPop (v : List ℚ) : ℕ :=
  let μ := listMean v
  let s := ssd v
  countIf (fun x => 9 * s < (x - μ) ^ 2 * (v.length : ℚ)) v

/-- Declarative anomaly findings with the population standard
deviation: the amended claim's reading. -/
def specAnomaliesPop (t : Table) : List AnomalyFinding :=
  (numericCols t).filterMap fun c =>
    let v := dropna c.cells
    let k := specAnomalyCountPop v
    if 5 < v.length ∧ 0 < k then some ⟨c.name, k⟩ else none

/-- The spec's percentile: "linear interpolation between closest ranks" —
between the values at the floor and the ceiling of the fractional
position `p·(n−1)` in the sorted sequence. -/
def specPercentile (s : List ℚ) (p : ℚ) : ℚ :=
  let n := s.length
  let pos := p * ((n : ℚ) - 1)
  let lo := (Int.floor pos).toNat
  let hi := (Int.ceil pos).toNat
  let a := s.getD lo 0
  let b := s.getD hi 0
  a + (pos - (lo : ℚ)) * (b - a)

/-- The spec's outlier rule: Q1/Q3 by interpolated percentiles of the
sorted values, zero when `IQR = 0`, else the number of values strictly
outside `[Q1 − 1.5·IQR, Q3 + 1.5·IQR]`. -/
def specOutlierCount (xs : List ℚ) : ℕ :=
  let s := sortAsc xs
  let q1 := specPercentile s (1/4)
  let q3 := specPercentile s (3/4)
  let iqr := q3 - q1
  if iqr = 0 then 0
  else countIf (fun x => x < q1 - 3/2 * iqr ∨ q3 + 3/2 * iqr < x) xs

/-- The spec's trend rule per column: at least 3 non-missing values in
row order, strictly monotonic across **every** consecutive pair
(`List.Chain'`). -/
def specTrendOfCol (c : Column) : Option TrendFinding :=
  let v := dropna c.cells
  if 3 ≤ v.length then
    if List.Chain' (· < ·) v then some ⟨c.name, TrendDir.increasing⟩
    else if List.Chain' (fun a b => b < a) v then some ⟨c.name, TrendDir.decreasing⟩
    else none
  else none

/-- The spec's trend findings. -/
def specTrends (t : Table) : List TrendFinding :=
  (numericCols t).filterMap specTrendOfCol

/-- All unordered index pairs `(i, j)`, `i < j < n`, in lexicographic
order. -/
def indexPairs (n : ℕ) : List (ℕ × ℕ) :=
  (List.range n).flatMap fun i =>
    (List.range n).filterMap fun j =>
      if i < j then some (i, j) else none

/-- The spec's correlation findings: empty with fewer than 2 numeric
columns, else one finding for each unordered pair of distinct numeric
columns whose Pearson coefficient is defined and exceeds `0.7` in
absolute value. -/
def specCorrelations (t : Table) : List CorrFinding :=
  let nd := numericCols t
  if nd.length < 2 then []
  else (indexPairs nd.length).filterMap fun p =>
    if corrHigh (nd.getD p.1 default).cells (nd.getD p.2 default).cells then
      some ⟨(nd.getD p.1 default).name, (nd.getD p.2 default).name,
            corrSSOf (nd.getD p.1 default).cells (nd.getD p.2 default).cells⟩
    else none

/-- Recursive form of the duplicate scan, for reasoning about
`countDups`: count rows already in `seen` or seen earlier in the scan. -/
def countDupsFrom (seen : List (List Cell)) : List (List Cell) → ℕ
  | [] => 0
  | r :: rs =>
    if r ∈ seen then 1 + countDupsFrom seen rs
    else countDupsFrom (r :: seen) rs

/-- The spec's duplicate-row count: the number of row positions `i` such
that some earlier row (position `j < i`, i.e. a member of the length-`i`
prefix) is identical in every column. -/
def specDupCount (rows : List (List Cell)) : ℕ :=
  countIf (fun i => rows.getD i [] ∈ rows.take i) (List.range rows.length)

/-- The claim's acceptance rule for uploads: size in bytes **strictly
below** the configured maximum of `maxMB` MiB. -/
def specAcceptsStrict (maxMB : ℕ) (fileSizeBytes : ℕ) : Prop :=
  fileSizeBytes < maxMB * 1024 ^ 2

instance (maxMB fileSizeBytes : ℕ) :
    Decidable (specAcceptsStrict maxMB fileSizeBytes) := by
  unfold specAcceptsStrict
  infer_instance

/-! ## Concrete example tables used in witnesses and counterexamples -/

/-- A single numeric column whose population z-score for the value 9
exceeds 3 while its sample z-score does not: values
`[9, −3, −3, −3]` followed by eight `2`s and eight `−2`s (mean 0,
`Σd² = 172`, `n = 20`; `z_pop² = 81·20/172 > 9 ≥ 81·19/172 = z_samp²`). -/
def anomalyEdgeTable : Table :=
  ⟨[⟨"x", Dtype.numeric,
     [Cell.num 9, Cell.num (-3), Cell.num (-3), Cell.num (-3),
      Cell.num 2, Cell.num 2, Cell.num 2, Cell.num 2,
      Cell.num 2, Cell.num 2, Cell.num 2, Cell.num 2,
      Cell.num (-2), Cell.num (-2), Cell.num (-2), Cell.num (-2),
      Cell.num (-2), Cell.num (-2), Cell.num (-2), Cell.num (-2)]⟩]⟩

/-- A numeric column holding a single value: its values are vacuously
all equal, yet pandas reports `std = NaN` (`ddof=1` with `n = 1`). -/
def singleValueTable : Table :=
  ⟨[⟨"x", Dtype.numeric, [Cell.num 5]⟩]⟩

/-- The spec's worked IQR example `[1, 2, 3, 4, 5, 100]`. -/
def iqrExample : List ℚ := [1, 2, 3, 4, 5, 100]

/-! ## Helper lemmas -/

theorem countIf_congr {α : Type} {P Q : α → Prop} [DecidablePred P] [DecidablePred Q]
    {l : List α} (h : ∀ x ∈ l, (P x ↔ Q x)) : countIf P l = countIf Q l := by
  induction l with
  | nil => rfl
  | cons x xs ih =>
    simp only [countIf]
    rw [ih fun y hy => h y (List.mem_cons_of_mem x hy)]
    by_cases hx : P x
    · rw [if_pos hx, if_pos ((h x (List.mem_cons_self x xs)).mp hx)]
    · rw [if_neg hx, if_neg (fun hq => hx ((h x (List.mem_cons_self x xs)).mpr hq))]

theorem countIf_eq_length_filter {α : Type} (P : α → Prop) [DecidablePred P] (l : List α) :
    countIf P l = (l.filter fun x => decide (P x)).length := by
  induction l with
  | nil => rfl
  | cons x xs ih =>
    simp only [countIf, List.filter_cons]
    by_cases hx : P x
    · simp [hx, ih, Nat.add_comm]
    · simp [hx, ih]

theorem successiveDiffs_cons_cons (x y : ℚ) (t : List ℚ) :
    successiveDiffs (x :: y :: t) = (y - x) :: successiveDiffs (y :: t) := by
  simp [successiveDiffs]

theorem diffs_pos_iff_chain (v : List ℚ) :
    (∀ x ∈ successiveDiffs v, 0 < x) ↔ List.Chain' (· < ·) v := by
  induction v with
  | nil => simp [successiveDiffs]
  | cons x xs ih =>
    cases xs with
    | nil => simp [successiveDiffs]
    | cons y t =>
      rw [successiveDiffs_cons_cons, List.chain'_cons, ← ih]
      constructor
      · intro h
        exact ⟨sub_pos.mp (h _ (List.mem_cons_self _ _)),
               fun z hz => h z (List.mem_cons_of_mem _ hz)⟩
      · rintro ⟨hxy, hrest⟩ z hz
        rcases List.mem_cons.mp hz with hz | hz
        · exact hz ▸ sub_pos.mpr hxy
        · exact hrest z hz

theorem diffs_neg_iff_chain (v : List ℚ) :
    (∀ x ∈ successiveDiffs v, x < 0) ↔ List.Chain' (fun a b => b < a) v := by
  induction v with
  | nil => simp [successiveDiffs]
  | cons x xs ih =>
    cases xs with
    | nil => simp [successiveDiffs]
    | cons y t =>
      rw [successiveDiffs_cons_cons, List.chain'_cons, ← ih]
      constructor
      · intro h
        exact ⟨sub_neg.mp (h _ (List.mem_cons_self _ _)),
               fun z hz => h z (List.mem_cons_of_mem _ hz)⟩
      · rintro ⟨hxy, hrest⟩ z hz
        rcases List.mem_cons.mp hz with hz | hz
        · exact hz ▸ sub_neg.mpr hxy
        · exact hrest z hz

theorem trendOfCol_eq_spec (c : Column) : trendOfCol c = specTrendOfCol c := by
  unfold trendOfCol specTrendOfCol
  by_cases h3 : 3 ≤ (dropna c.cells).length
  · simp only [if_pos h3]
    by_cases hp : ∀ x ∈ successiveDiffs (dropna c.cells), 0 < x
    · rw [if_pos hp, if_pos ((diffs_pos_iff_chain _).mp hp)]
    · rw [if_neg hp, if_neg (fun hc => hp ((diffs_pos_iff_chain _).mpr hc))]
      by_cases hn : ∀ x ∈ successiveDiffs (dropna c.cells), x < 0
      · rw [if_pos hn, if_pos ((diffs_neg_iff_chain _).mp hn)]
      · rw [if_neg hn, if_neg (fun hc => hn ((diffs_neg_iff_chain _).mpr hc))]
  · simp only [if_neg h3]

/-- **C4.** For every numeric column, `detect_patterns` emits a trend
finding with direction increasing iff the column has at least 3
non-missing values (in row order) that are strictly increasing across
every consecutive pair (`Chain' (· < ·)`), decreasing iff strictly
decreasing across every pair, and no finding otherwise: the trends block
equals the spec-side classification `specTrends`. -/
theorem claim_C4_trend_iff_strict_monotone (t : Table) :
    (detect_patterns t).trends = specTrends t := by
  show trendsOf t = specTrends t
  unfold trendsOf specTrends
  exact List.filterMap_congr fun c _ => trendOfCol_eq_spec c

theorem anomalyCount_eq_pop (v : List ℚ) (hv : v ≠ []) :
    anomalyCount v = specAnomalyCountPop v := by
  unfold anomalyCount specAnomalyCountPop
  apply countIf_congr
  intro x _
  have hn : (0 : ℚ) < v.length := by
    have := List.length_pos.mpr hv
    exact_mod_cast this
  rw [← mul_div_assoc]
  exact div_lt_iff₀ hn

/-- **C1 (amended).** The anomaly block of `detect_patterns` emits, for
each numeric column with more than 5 non-missing values, a finding iff a
positive number of values has `|z| > 3` where the z-score uses the
**population** standard deviation (`scipy.stats.zscore` default
`ddof=0`), with that count — not the sample standard deviation the
original claim states. -/
theorem claim_C1_anomaly_popstd (t : Table) :
    (detect_patterns t).anomalies = specAnomaliesPop t := by
  show anomaliesOf t = specAnomaliesPop t
  unfold anomaliesOf specAnomaliesPop
  apply List.filterMap_congr
  intro c _
  by_cases h5 : 5 < (dropna c.cells).length
  · have hne : dropna c.cells ≠ [] := by
      intro h
      rw [h] at h5
      simp at h5
    simp only [anomalyCount_eq_pop _ hne]
    by_cases hk : 0 < specAnomalyCountPop (dropna c.cells)
    · rw [if_pos h5, if_pos hk, if_pos ⟨h5, hk⟩]
    · rw [if_pos h5, if_neg hk, if_neg fun hc => hk hc.2]
  · rw [if_neg h5, if_neg fun hc => h5 hc.1]

/-- **C1 counterexample.** On `anomalyEdgeTable` (20 values, mean 0,
`Σd² = 172`; the value 9 has `z_pop² = 81·20/172 > 9` but
`z_samp² = 81·19/172 ≤ 9`) the code emits an anomaly finding with count
1, while the claim's sample-standard-deviation rule emits none. -/
theorem claim_C1_counterexample :
    (detect_patterns anomalyEdgeTable).anomalies = [⟨"x", 1⟩] ∧
    specAnomaliesSample anomalyEdgeTable = [] ∧
    (detect_patterns anomalyEdgeTable).anomalies ≠ specAnomaliesSample anomalyEdgeTable := by
  refine ⟨?_, ?_, ?_⟩
  · show anomaliesOf anomalyEdgeTable = _
    norm_num [anomaliesOf, anomalyEdgeTable, numericCols, dropna, anomalyCount,
      countIf, listMean, ssd, List.filterMap_cons, List.filterMap_nil]
  · norm_num [specAnomaliesSample, anomalyEdgeTable, numericCols, dropna,
      specAnomalyCountSample, countIf, listMean, ssd, List.filterMap_cons,
      List.filterMap_nil]
  · show anomaliesOf anomalyEdgeTable ≠ _
    norm_num [anomaliesOf, specAnomaliesSample, anomalyEdgeTable, numericCols,
      dropna, anomalyCount, specAnomalyCountSample, countIf, listMean, ssd,
      List.filterMap_cons, List.filterMap_nil]

theorem insertSorted_replicate (c : ℚ) (m : ℕ) :
    insertSorted c (List.replicate m c) = List.replicate (m + 1) c := by
  cases m with
  | zero => rfl
  | succ k =>
    simp only [List.replicate_succ, insertSorted, if_pos (le_refl c)]

theorem sortAsc_replicate (c : ℚ) (n : ℕ) :
    sortAsc (List.replicate n c) = List.replicate n c := by
  induction n with
  | zero => rfl
  | succ k ih =>
    simp only [List.replicate_succ, sortAsc, ih]
    exact insertSorted_replicate c k

theorem listMean_const (v : List ℚ) (c : ℚ) (hv : v ≠ [])
    (hconst : ∀ x ∈ v, x = c) : listMean v = c := by
  have hsum : v.sum = v.length • c := List.sum_eq_card_nsmul v c hconst
  have hn : (0 : ℚ) < v.length := by
    have := List.length_pos.mpr hv
    exact_mod_cast this
  rw [listMean, hsum, nsmul_eq_mul, mul_comm, mul_div_assoc, div_self (ne_of_gt hn)]
  exact mul_one c

theorem ssd_const (v : List ℚ) (c : ℚ) (hv : v ≠ [])
    (hconst : ∀ x ∈ v, x = c) : ssd v = 0 := by
  rw [ssd]
  apply List.sum_eq_zero
  intro y hy
  rcases List.mem_map.mp hy with ⟨x, hx, rfl⟩
  rw [hconst x hx, listMean_const v c hv hconst]
  ring

theorem quantileSorted_replicate (c : ℚ) (n : ℕ) (q : ℚ) (hn : 1 ≤ n)
    (hq1 : q ≤ 1) :
    quantileSorted (List.replicate n c) q = c := by
  unfold quantileSorted
  simp only [List.length_replicate]
  set pos := q * ((n : ℚ) - 1) with hpos
  have hn1 : ((n : ℚ) - 1) = ((n - 1 : ℕ) : ℚ) := by
    push_cast [Nat.cast_sub hn]
    ring
  have hposle : pos ≤ ((n - 1 : ℕ) : ℚ) := by
    rw [hpos, ← hn1]
    calc q * ((n : ℚ) - 1) ≤ 1 * ((n : ℚ) - 1) := by
          apply mul_le_mul_of_nonneg_right hq1
          rw [hn1]
          positivity
      _ = (n : ℚ) - 1 := one_mul _
  have hfloor : (Int.floor pos) ≤ ((n - 1 : ℕ) : ℤ) := by
    have := Int.floor_le_floor hposle
    rwa [Int.floor_natCast] at this
  have hlo : (Int.floor pos).toNat < n := by
    have h1 : (Int.floor pos).toNat ≤ n - 1 := by
      omega
    omega
  have ha : (List.replicate n c).getD (Int.floor pos).toNat 0 = c := by
    rw [List.getD_eq_getElem?_getD, List.getElem?_replicate]
    simp [hlo]
  rw [ha]
  by_cases hlo1 : (Int.floor pos).toNat + 1 < n
  · have hb : (List.replicate n c).getD ((Int.floor pos).toNat + 1) c = c := by
      rw [List.getD_eq_getElem?_getD, List.getElem?_replicate]
      simp [hlo1]
    rw [hb]
    ring
  · have hb : (List.replicate n c).getD ((Int.floor pos).toNat + 1) c = c := by
      apply List.getD_eq_default
      simp only [List.length_replicate]
      omega
    rw [hb]
    ring

theorem detectOutliers_replicate (c : ℚ) (n : ℕ) (hn : 1 ≤ n) :
    detectOutliers (List.replicate n c) = 0 := by
  have hne : List.replicate n c ≠ [] := by
    simp only [ne_eq, List.replicate_eq_nil_iff]
    omega
  rw [detectOutliers, if_neg hne]
  simp only [sortAsc_replicate,
    quantileSorted_replicate c n (1/4) hn (by norm_num),
    quantileSorted_replicate c n (3/4) hn (by norm_num)]
  simp

theorem detectOutliers_const (v : List ℚ) (c : ℚ) (hv : v ≠ [])
    (hconst : ∀ x ∈ v, x = c) : detectOutliers v = 0 := by
  have hrep : v = List.replicate v.length c := List.eq_replicate_length.mpr hconst
  have hn : 1 ≤ v.length := List.length_pos.mpr hv
  conv_lhs => rw [hrep]
  exact detectOutliers_replicate c v.length hn

/-- **C2 counterexample.** A numeric column holding the single value 5
has all its non-missing values (vacuously) equal, yet
`statistical_summary` reports `std = NaN` (pandas `ddof=1` with one
value), not `std = 0` as the claim states for every constant column. -/
theorem claim_C2_counterexample :
    (statistical_summary singleValueTable).1.map (fun p => (p.1, p.2.stdSq)) =
      [("x", some PyFloat.nan)] ∧
    (some PyFloat.nan ≠ some (PyFloat.val 0)) := by
  constructor
  · norm_num [statistical_summary, singleValueTable, numericCols, numericSummary,
      dropna, sampleVarP, List.filterMap_cons, List.filterMap_nil, List.filter]
    simp
  · simp

/-- **C2 (amended).** For every numeric column with at least **2**
non-missing values, all equal: `statistical_summary` reports `std = 0`
(here: the sample variance `stdSq` is 0) and `outliers_count = 0`, and
the trend classification of `detect_patterns` yields no finding for that
column.  (With 0 or 1 non-missing values the outlier count and trend
conclusions still hold but `std` is absent resp. `NaN`.) -/
theorem claim_C2_constant_column (col : Column) (c : ℚ)
    (h2 : 2 ≤ (dropna col.cells).length)
    (hconst : ∀ x ∈ dropna col.cells, x = c) :
    (numericSummary col.cells).stdSq = some (PyFloat.val 0) ∧
    (numericSummary col.cells).outliersCount = 0 ∧
    trendOfCol col = none := by
  have hv : dropna col.cells ≠ [] := by
    intro h
    rw [h] at h2
    simp at h2
  have hvar : sampleVarP (dropna col.cells) = PyFloat.val 0 := by
    rw [sampleVarP, if_neg (by omega)]
    rw [ssd_const _ c hv hconst, zero_div]
  have hx0 : ∀ x ∈ successiveDiffs (dropna col.cells), x = 0 := by
    intro x hx
    rcases List.mem_map.mp hx with ⟨p, hp, rfl⟩
    have h1 := (List.of_mem_zip hp).1
    have h2' := List.mem_of_mem_tail (List.of_mem_zip hp).2
    rw [hconst _ h1, hconst _ h2']
    exact sub_self c
  refine ⟨?_, ?_, ?_⟩
  · simp only [numericSummary, if_neg hv]
    rw [hvar]
  · simp only [numericSummary, if_neg hv]
    exact detectOutliers_const _ c hv hconst
  · by_cases h3 : 3 ≤ (dropna col.cells).length
    · have hd : ∃ x, x ∈ successiveDiffs (dropna col.cells) := by
        apply List.exists_mem_of_length_pos
        rw [successiveDiffs, List.length_map, List.length_zip, List.length_tail]
        omega
      obtain ⟨x0, hx0mem⟩ := hd
      have hnot1 : ¬ ∀ x ∈ successiveDiffs (dropna col.cells), 0 < x := by
        intro h
        have := h x0 hx0mem
        rw [hx0 x0 hx0mem] at this
        exact lt_irrefl 0 this
      have hnot2 : ¬ ∀ x ∈ successiveDiffs (dropna col.cells), x < 0 := by
        intro h
        have := h x0 hx0mem
        rw [hx0 x0 hx0mem] at this
        exact lt_irrefl 0 this
      simp only [trendOfCol, if_pos h3, if_neg hnot1, if_neg hnot2]
    · simp only [trendOfCol, if_neg h3]

/-- Witness for `claim_C2_constant_column` at the two-value constant
column `[7, 7]`. -/
theorem claim_C2_constant_column_witness :
    (2 ≤ (dropna [Cell.num 7, Cell.num 7]).length ∧
     ∀ x ∈ dropna [Cell.num 7, Cell.num 7], x = 7) ∧
    ((numericSummary [Cell.num 7, Cell.num 7]).stdSq = some (PyFloat.val 0) ∧
     (numericSummary [Cell.num 7, Cell.num 7]).outliersCount = 0 ∧
     trendOfCol ⟨"x", Dtype.numeric, [Cell.num 7, Cell.num 7]⟩ = none) := by
  have hdrop : dropna [Cell.num 7, Cell.num 7] = [7, 7] := rfl
  have hall : ∀ x ∈ dropna [Cell.num 7, Cell.num 7], x = (7 : ℚ) := by
    intro x hx
    rw [hdrop] at hx
    simp only [List.mem_cons, List.not_mem_nil, or_false] at hx
    rcases hx with h | h <;> exact h
  refine ⟨⟨?_, hall⟩, ?_⟩
  · rw [hdrop]
    simp
  · exact claim_C2_constant_column ⟨"x", Dtype.numeric, [Cell.num 7, Cell.num 7]⟩ 7
      (by rw [hdrop]; simp) hall

theorem insertSorted_length (x : ℚ) (l : List ℚ) :
    (insertSorted x l).length = l.length + 1 := by
  induction l with
  | nil => rfl
  | cons y ys ih =>
    rw [insertSorted]
    by_cases h : x ≤ y
    · rw [if_pos h]
      rfl
    · rw [if_neg h]
      simp [ih]

theorem sortAsc_length (l : List ℚ) : (sortAsc l).length = l.length := by
  induction l with
  | nil => rfl
  | cons x xs ih =>
    rw [sortAsc, insertSorted_length, ih]
    rfl

theorem quantileSorted_eq_specPercentile (s : List ℚ) (q : ℚ)
    (hq0 : 0 ≤ q) (hq1 : q ≤ 1) (hs : s ≠ []) :
    quantileSorted s q = specPercentile s q := by
  have hn : 1 ≤ s.length := List.length_pos.mpr hs
  simp only [quantileSorted, specPercentile]
  set pos := q * ((s.length : ℚ) - 1) with hposdef
  have hn1 : ((s.length : ℚ) - 1) = ((s.length - 1 : ℕ) : ℚ) := by
    push_cast [Nat.cast_sub hn]
    ring
  have hpos0 : 0 ≤ pos := by
    rw [hposdef, hn1]
    positivity
  have hposle : pos ≤ ((s.length - 1 : ℕ) : ℚ) := by
    rw [hposdef, ← hn1]
    calc q * ((s.length : ℚ) - 1) ≤ 1 * ((s.length : ℚ) - 1) := by
          apply mul_le_mul_of_nonneg_right hq1
          rw [hn1]
          positivity
      _ = (s.length : ℚ) - 1 := one_mul _
  have hfl0 : 0 ≤ Int.floor pos := Int.floor_nonneg.mpr hpos0
  have hcast : (((Int.floor pos).toNat : ℕ) : ℚ) = ((Int.floor pos : ℤ) : ℚ) := by
    exact_mod_cast congrArg (fun z : ℤ => (z : ℚ)) (Int.toNat_of_nonneg hfl0)
  by_cases hfr : Int.fract pos = 0
  · have hfrac : pos - (((Int.floor pos).toNat : ℕ) : ℚ) = 0 := by
      rw [hcast, Int.self_sub_floor, hfr]
    rw [hfrac]
    ring
  · have hlt : pos < ((s.length - 1 : ℕ) : ℚ) := by
      rcases lt_or_eq_of_le hposle with h | h
      · exact h
      · exfalso
        apply hfr
        rw [h]
        exact Int.fract_natCast _
    have hceil : Int.ceil pos = Int.floor pos + 1 := by
      rw [Int.ceil_eq_iff]
      constructor
      · push_cast
        have hne : (Int.floor pos : ℚ) ≠ pos := by
          intro h
          apply hfr
          rw [← h]
          exact Int.fract_intCast _
        have hle := Int.floor_le pos
        have : (Int.floor pos : ℚ) < pos := lt_of_le_of_ne hle hne
        linarith
      · push_cast
        exact le_of_lt (Int.lt_floor_add_one pos)
    have hflt : Int.floor pos < (s.length : ℤ) - 1 := by
      rw [Int.floor_lt]
      push_cast
      rw [hn1]
      exact_mod_cast hlt
    have hrange : (Int.floor pos).toNat + 1 < s.length := by
      omega
    have hhi : (Int.ceil pos).toNat = (Int.floor pos).toNat + 1 := by
      rw [hceil]
      omega
    rw [hhi]
    have hb : s.getD ((Int.floor pos).toNat + 1) (s.getD (Int.floor pos).toNat 0) =
        s.getD ((Int.floor pos).toNat + 1) 0 := by
      rw [List.getD_eq_getElem s _ hrange, List.getD_eq_getElem s _ hrange]
    rw [hb]

/-- **C3.** For every non-empty value sequence, `_detect_outliers`
computes exactly the spec's IQR rule: Q1/Q3 by linear interpolation
between closest ranks on the sorted values, zero outliers when
`IQR = 0`, else the count of values strictly outside the 1.5·IQR fences;
on `[1, 2, 3, 4, 5, 100]` the count is exactly 1. -/
theorem claim_C3_outlier_count :
    (∀ xs : List ℚ, xs ≠ [] → detectOutliers xs = specOutlierCount xs) ∧
    detectOutliers iqrExample = 1 := by
  constructor
  · intro xs hxs
    have hsne : sortAsc xs ≠ [] := by
      intro h
      apply hxs
      have := sortAsc_length xs
      rw [h] at this
      exact List.length_eq_zero.mp this.symm
    simp only [detectOutliers, specOutlierCount, if_neg hxs]
    rw [quantileSorted_eq_specPercentile _ (1/4) (by norm_num) (by norm_num) hsne,
        quantileSorted_eq_specPercentile _ (3/4) (by norm_num) (by norm_num) hsne]
  · norm_num [detectOutliers, iqrExample, sortAsc, insertSorted, quantileSorted,
      countIf]
    simp only [Int.reduceToNat]
    norm_num
    simp

/-- Witness for `claim_C3_outlier_count` at the spec's worked example. -/
theorem claim_C3_outlier_count_witness :
    iqrExample ≠ [] ∧ specOutlierCount iqrExample = 1 := by
  refine ⟨by simp [iqrExample], ?_⟩
  rw [← claim_C3_outlier_count.1 iqrExample (by simp [iqrExample])]
  exact claim_C3_outlier_count.2

theorem filterMap_ite {α β : Type} (P : α → Prop) [DecidablePred P]
    (h : α → Option β) (l : List α) :
    l.filterMap (fun j => if P j then h j else none) =
    (l.filter fun j => decide (P j)).filterMap h := by
  induction l with
  | nil => rfl
  | cons x xs ih =>
    by_cases hp : P x
    · simp [List.filterMap_cons, List.filter_cons, hp, ih]
    · simp [List.filterMap_cons, List.filter_cons, hp, ih]

theorem filter_lt_range (n i : ℕ) :
    ((List.range n).filter fun j => decide (i < j)) = List.range' (i + 1) (n - (i + 1)) := by
  induction n with
  | zero =>
    rw [Nat.zero_sub]
    rfl
  | succ k ih =>
    rw [List.range_succ, List.filter_append, ih]
    by_cases h : i < k
    · have hm : k + 1 - (i + 1) = (k - (i + 1)) + 1 := by omega
      have hfilter : List.filter (fun j => decide (i < j)) [k] = [k] := by
        simp [h]
      have harg : i + 1 + 1 * (k - (i + 1)) = k := by omega
      rw [hfilter, hm, List.range'_concat, harg]
    · have hm : k + 1 - (i + 1) = k - (i + 1) := by omega
      have hfilter : List.filter (fun j => decide (i < j)) [k] = [] := by
        simp [h]
      rw [hm, hfilter, List.append_nil]

theorem filterMap_flatMap {α β γ : Type} (l : List α) (f : α → List β) (g : β → Option γ) :
    (l.flatMap f).filterMap g = l.flatMap fun a => (f a).filterMap g := by
  induction l with
  | nil => rfl
  | cons x xs ih =>
    simp [List.flatMap_cons, List.filterMap_append, ih]

theorem indexPairs_fst {n : ℕ} {i : ℕ} {p : ℕ × ℕ}
    (hp : p ∈ (List.range n).filterMap fun j => if i < j then some (i, j) else none) :
    p.1 = i := by
  rcases List.mem_filterMap.mp hp with ⟨j, _, hj⟩
  by_cases h : i < j
  · rw [if_pos h] at hj
    cases hj
    rfl
  · rw [if_neg h] at hj
    cases hj

theorem indexPairs_nodup (n : ℕ) : (indexPairs n).Nodup := by
  unfold indexPairs
  rw [List.nodup_flatMap]
  constructor
  · intro i _
    apply List.Nodup.filterMap
    · intro a b c ha hb
      by_cases h1 : i < a
      · by_cases h2 : i < b
        · rw [if_pos h1] at ha
          rw [if_pos h2] at hb
          cases ha
          cases hb
          rfl
        · rw [if_neg h2] at hb
          cases hb
      · rw [if_neg h1] at ha
        cases ha
    · exact List.nodup_range n
  · apply List.Pairwise.imp ?_ (List.pairwise_lt_range n)
    intro a b hab
    intro p hpa hpb
    have h1 := indexPairs_fst hpa
    have h2 := indexPairs_fst hpb
    omega

/-- **C5.** `detect_patterns` returns an empty correlation list whenever
the table has fewer than 2 numeric columns; otherwise it contains
exactly one finding per unordered pair `(i, j)`, `i < j`, of distinct
numeric columns whose Pearson coefficient (over rows where neither value
is missing) is defined and exceeds `0.7` in absolute value: the list
equals the spec-side `specCorrelations`, one entry per qualifying member
of the duplicate-free pair list `indexPairs`. -/
theorem claim_C5_correlation_pairs (t : Table) :
    ((numericCols t).length < 2 → (detect_patterns t).correlations = []) ∧
    (detect_patterns t).correlations = specCorrelations t ∧
    (indexPairs (numericCols t).length).Nodup := by
  have hmain : (detect_patterns t).correlations = specCorrelations t := by
    show highCorrelations t = specCorrelations t
    by_cases h2 : (numericCols t).length < 2
    · simp only [highCorrelations, specCorrelations]
      rw [if_neg (by omega), if_pos h2]
    · simp only [highCorrelations, specCorrelations]
      rw [if_pos (by omega), if_neg h2]
      unfold indexPairs
      rw [filterMap_flatMap]
      apply congrArg
      funext i
      rw [List.filterMap_filterMap]
      have hstep : (fun j => Option.bind (if i < j then some (i, j) else none)
          fun p => if corrHigh ((numericCols t).getD p.1 default).cells
              ((numericCols t).getD p.2 default).cells then
            some (CorrFinding.mk ((numericCols t).getD p.1 default).name
                  ((numericCols t).getD p.2 default).name
                  (corrSSOf ((numericCols t).getD p.1 default).cells
                    ((numericCols t).getD p.2 default).cells))
          else none) =
          (fun j => if i < j then
            (if corrHigh ((numericCols t).getD i default).cells
                ((numericCols t).getD j default).cells then
              some (CorrFinding.mk ((numericCols t).getD i default).name
                    ((numericCols t).getD j default).name
                    (corrSSOf ((numericCols t).getD i default).cells
                      ((numericCols t).getD j default).cells))
            else none)
          else none) := by
        funext j
        by_cases h : i < j
        · rw [if_pos h, if_pos h]
          rfl
        · rw [if_neg h, if_neg h]
          rfl
      rw [hstep, filterMap_ite (fun j => i < j), filter_lt_range]
  exact ⟨fun _ => by rw [hmain]; simp only [specCorrelations]; rw [if_pos (by assumption)],
         hmain, indexPairs_nodup _⟩

/-- Witness for `claim_C5_correlation_pairs` at a one-numeric-column
table: fewer than 2 numeric columns, so the correlation list is empty. -/
theorem claim_C5_correlation_pairs_witness :
    (numericCols singleValueTable).length < 2 ∧
    (detect_patterns singleValueTable).correlations = [] :=
  ⟨by norm_num [numericCols, singleValueTable, List.filter],
   (claim_C5_correlation_pairs singleValueTable).1
     (by norm_num [numericCols, singleValueTable, List.filter])⟩

theorem dropna_replicate_na (n : ℕ) :
    dropna (List.replicate n Cell.na) = [] := by
  induction n with
  | zero => rfl
  | succ k ih =>
    rw [List.replicate_succ]
    simp only [dropna, List.filterMap_cons]
    exact ih

theorem catValues_replicate_na (n : ℕ) :
    catValues (List.replicate n Cell.na) = [] := by
  induction n with
  | zero => rfl
  | succ k ih =>
    rw [List.replicate_succ]
    simp only [catValues, List.filter_cons] at ih ⊢
    simp only [ne_eq, not_true_eq_false, decide_False, Bool.false_eq_true,
      if_false] at ih ⊢
    exact ih

/-- **C6.** Degenerate inputs produce defined fallbacks, never errors:
an all-missing numeric column summarizes to all-absent fields with 0
outliers, an all-missing categorical column to `unique_count = 0` with
no mode, `detect_patterns` on such a table emits nothing, and a
single-value numeric column gets `skewness = kurtosis = 0.0`,
`std = NaN` and 0 outliers.  (Totality itself is structural: every
embedded function is total.) -/
theorem claim_C6_degenerate_inputs (n : ℕ) (q : ℚ) :
    statistical_summary ⟨[⟨"x", Dtype.numeric, List.replicate n Cell.na⟩,
                          ⟨"y", Dtype.object, List.replicate n Cell.na⟩]⟩ =
      ([("x", ⟨none, none, none, none, none, none, none, 0⟩)],
       [("y", ⟨0, none⟩)]) ∧
    detect_patterns ⟨[⟨"x", Dtype.numeric, List.replicate n Cell.na⟩,
                      ⟨"y", Dtype.object, List.replicate n Cell.na⟩]⟩ = ⟨[], [], []⟩ ∧
    numericSummary [Cell.num q] =
      ⟨some q, some q, some PyFloat.nan, some q, some q,
       some (PyFloat.val 0), some (PyFloat.val 0), 0⟩ := by
  have hout : detectOutliers [q] = 0 := by
    rw [show [q] = List.replicate 1 q from rfl]
    exact detectOutliers_replicate q 1 le_rfl
  refine ⟨?_, ?_, ?_⟩
  · simp [statistical_summary, numericCols, categoricalCols, List.filter_cons,
      numericSummary, dropna_replicate_na, categoricalSummary,
      catValues_replicate_na, modeFirst]
  · simp [detect_patterns, highCorrelations, numericCols, categoricalCols,
      List.filter_cons, trendsOf, trendOfCol, anomaliesOf, dropna_replicate_na]
  · norm_num [numericSummary, dropna, List.filterMap_cons, List.filterMap_nil,
      listMean, listMedian, sortAsc, insertSorted, sampleVarP, hout]

theorem countIf_map {α β : Type} (P : β → Prop) [DecidablePred P]
    (f : α → β) (l : List α) :
    countIf P (l.map f) = countIf (fun x => P (f x)) l := by
  induction l with
  | nil => rfl
  | cons x xs ih =>
    simp only [List.map_cons, countIf, ih]

theorem countDups_go (rows : List (List Cell)) :
    ∀ (seen : List (List Cell)) (k : ℕ),
    (rows.foldl (fun acc r => if r ∈ acc.1 then (acc.1, acc.2 + 1)
        else (r :: acc.1, acc.2)) (seen, k)).2
      = k + countDupsFrom seen rows := by
  induction rows with
  | nil =>
    intro seen k
    simp [countDupsFrom]
  | cons r rs ih =>
    intro seen k
    rw [List.foldl_cons, countDupsFrom]
    by_cases h : r ∈ seen
    · rw [if_pos h, if_pos h, ih seen (k + 1)]
      omega
    · rw [if_neg h, if_neg h, ih (r :: seen) k]

theorem countDupsFrom_congr (rs : List (List Cell)) :
    ∀ s₁ s₂, (∀ x, x ∈ s₁ ↔ x ∈ s₂) →
      countDupsFrom s₁ rs = countDupsFrom s₂ rs := by
  induction rs with
  | nil => intro _ _ _; rfl
  | cons r rs ih =>
    intro s₁ s₂ h
    rw [countDupsFrom, countDupsFrom]
    by_cases h1 : r ∈ s₁
    · rw [if_pos h1, if_pos ((h r).mp h1), ih s₁ s₂ h]
    · rw [if_neg h1, if_neg fun h2 => h1 ((h r).mpr h2)]
      apply ih
      intro x
      simp only [List.mem_cons, h x]

theorem countDupsFrom_eq (rs : List (List Cell)) :
    ∀ seen, countDupsFrom seen rs =
      countIf (fun i => rs.getD i [] ∈ seen ++ rs.take i) (List.range rs.length) := by
  induction rs with
  | nil => intro _; rfl
  | cons r rs ih =>
    intro seen
    rw [List.length_cons, List.range_succ_eq_map, countIf, countIf_map]
    simp only [Nat.succ_eq_add_one]
    have hhead : ((r :: rs).getD 0 [] ∈ seen ++ (r :: rs).take 0) ↔ r ∈ seen := by
      simp
    have htail : ∀ i, ((r :: rs).getD (i + 1) [] ∈ seen ++ (r :: rs).take (i + 1)) ↔
        (rs.getD i [] ∈ (r :: seen) ++ rs.take i) := by
      intro i
      simp only [List.getD_cons_succ, List.take_succ_cons, List.cons_append,
        List.mem_append, List.mem_cons]
      tauto
    rw [countDupsFrom]
    by_cases h : r ∈ seen
    · rw [if_pos h, if_pos (hhead.mpr h), ih seen]
      have hcongr : countIf (fun i => rs.getD i [] ∈ seen ++ rs.take i)
            (List.range rs.length) =
          countIf (fun i => (r :: rs).getD (i + 1) [] ∈ seen ++ (r :: rs).take (i + 1))
            (List.range rs.length) := by
        apply countIf_congr
        intro i _
        rw [htail i]
        simp only [List.cons_append, List.mem_cons, List.mem_append]
        constructor
        · tauto
        · rintro (rfl | hm | hm)
          · exact Or.inl h
          · exact Or.inl hm
          · exact Or.inr hm
      omega
    · rw [if_neg h, if_neg fun hm => h (hhead.mp hm), ih (r :: seen)]
      have hcongr : countIf (fun i => rs.getD i [] ∈ (r :: seen) ++ rs.take i)
            (List.range rs.length) =
          countIf (fun i => (r :: rs).getD (i + 1) [] ∈ seen ++ (r :: rs).take (i + 1))
            (List.range rs.length) := by
        apply countIf_congr
        intro i _
        rw [htail i]
      omega

theorem countDups_eq_spec (rows : List (List Cell)) :
    countDups rows = specDupCount rows := by
  rw [countDups, countDups_go rows [] 0, countDupsFrom_eq rows [], specDupCount]
  simp only [List.nil_append, Nat.zero_add]

/-- **C7.** `basic_info` is total (a zero-column table yields zero-valued
fields), its `missing_values` mapping counts exactly the missing cells of
each column, and `duplicate_rows` counts exactly the rows for which some
earlier row is identical in every column. -/
theorem claim_C7_basic_info (t : Table) :
    basic_info ⟨[]⟩ = ⟨(0, 0), [], [], 0⟩ ∧
    (basic_info t).missingValues =
      t.cols.map (fun c => (c.name, countIf (fun x => x = Cell.na) c.cells)) ∧
    (basic_info t).duplicateRows = specDupCount t.rows := by
  refine ⟨rfl, ?_, countDups_eq_spec t.rows⟩
  simp only [basic_info]
  apply List.map_congr_left
  intro c _
  rw [countIf_eq_length_filter]

/-- **C8.** `detect_patterns` is deterministic and stateless: calling it
twice on the same analyzer returns identical patterns, and the analyzer
object is unchanged by the call. -/
theorem claim_C8_detect_patterns_deterministic (a : AnalyzerState) :
    (runDetectPatterns ((runDetectPatterns a).2)).1 = (runDetectPatterns a).1 ∧
    (runDetectPatterns a).2 = a :=
  ⟨rfl, rfl⟩

theorem runOps_id (ops : List AnalyzerOp) : ∀ e : Env, runOps e ops = e := by
  induction ops with
  | nil => intro e; rfl
  | cons o os ih =>
    intro e
    rw [runOps]
    cases o <;> exact ih e

/-- **C9.** Neither `basic_info`, `statistical_summary` nor
`detect_patterns` mutates anything: after any sequence of method calls
on an analyzer constructed from `src`, the caller's source table is
unchanged and the analyzer still holds the private copy made at
construction. -/
theorem claim_C9_source_table_not_mutated (src : Table) (ops : List AnalyzerOp) :
    (runOps ⟨src, DataAnalyzer.init src⟩ ops).source = src ∧
    (runOps ⟨src, DataAnalyzer.init src⟩ ops).analyzer.df = src := by
  rw [runOps_id ops]
  exact ⟨rfl, rfl⟩

/-- **C10 counterexample.** A file of exactly 200 MiB
(209715200 bytes) is *accepted* by `check_file_size_bytes` under the
default 200 MB limit (the code rejects only strictly larger sizes),
while the claim's "size strictly below the maximum" rule rejects it. -/
theorem claim_C10_counterexample :
    (check_file_size_bytes MAX_FILE_SIZE_default 209715200).1 = true ∧
    ¬ specAcceptsStrict MAX_FILE_SIZE_default 209715200 := by
  constructor
  · norm_num [check_file_size_bytes, MAX_FILE_SIZE_default]
  · norm_num [specAcceptsStrict, MAX_FILE_SIZE_default]

/-- **C10 (amended).** The size check accepts a file iff its size is
**at most** (not strictly below) `maxMB` MiB, and every rejection
message interpolates both the measured size (in MB) and the configured
limit. -/
theorem claim_C10_size_check (maxMB fileSizeBytes : ℕ) :
    ((check_file_size_bytes maxMB fileSizeBytes).1 = true ↔
      fileSizeBytes ≤ maxMB * 1024 ^ 2) ∧
    ((check_file_size_bytes maxMB fileSizeBytes).1 = false →
      MsgPart.mb ((fileSizeBytes : ℚ) / (1024 ^ 2)) ∈ (check_file_size_bytes maxMB fileSizeBytes).2 ∧
      MsgPart.mb (maxMB : ℚ) ∈ (check_file_size_bytes maxMB fileSizeBytes).2) := by
  have hpos : (0 : ℚ) < 1024 ^ 2 := by norm_num
  by_cases h : (maxMB : ℚ) < (fileSizeBytes : ℚ) / (1024 ^ 2)
  · have hgt : maxMB * 1024 ^ 2 < fileSizeBytes := by
      rw [lt_div_iff₀ hpos] at h
      exact_mod_cast h
    constructor
    · simp only [check_file_size_bytes, if_pos h]
      constructor
      · intro hfalse
        cases hfalse
      · intro hle
        omega
    · intro _
      simp only [check_file_size_bytes, if_pos h]
      simp
  · have hle : fileSizeBytes ≤ maxMB * 1024 ^ 2 := by
      rw [not_lt, div_le_iff₀ hpos] at h
      exact_mod_cast h
    constructor
    · simp only [check_file_size_bytes, if_neg h]
      simpa using hle
    · intro hfalse
      simp only [check_file_size_bytes, if_neg h] at hfalse
      simp at hfalse

/-- Witness for `claim_C10_size_check` at the default limit and a
209715201-byte (just over 200 MiB) file, exercising the rejection
branch. -/
theorem claim_C10_size_check_witness :
    (check_file_size_bytes 200 209715201).1 = false ∧
    MsgPart.mb ((209715201 : ℚ) / (1024 ^ 2)) ∈ (check_file_size_bytes 200 209715201).2 ∧
    MsgPart.mb (200 : ℚ) ∈ (check_file_size_bytes 200 209715201).2 := by
  have hfalse : (check_file_size_bytes 200 209715201).1 = false := by
    norm_num [check_file_size_bytes]
  have h := (claim_C10_size_check 200 209715201).2 hfalse
  exact ⟨hfalse, h.1, h.2⟩

end DataStoryteller
